import Mathlib

/-!
# Verification of the Epstein document-search core

A shallow embedding of the search engine of the repository
(`src/search.py`, `src/build_index.py`, `src/server.py`, `src/extractor.py`)
together with proofs of the specification claims.

Strings are modelled as `List Char`; Python's ASCII case conversion,
whitespace set (`str.split`, regex `\s`) and word characters (regex `\w`)
are modelled for the ASCII range.  Python regular expressions appearing in
the source are literal-scan patterns; each is implemented by a direct
fuelled scan with the same leftmost, non-overlapping, greedy semantics.
-/

namespace Epstein

/-! ## Character helpers (ASCII models of Python primitives) -/

/-- Python whitespace for `str.split()`, `str.strip()` and regex `\s`:
space, tab, newline, carriage return, vertical tab, form feed. -/
def isPySpace (c : Char) : Bool :=
  c == ' ' || c == '\t' || c == '\n' || c == '\r' || c == '\x0b' || c == '\x0c'

/-- ASCII model of Python `str.lower` on one character. -/
def lowerChar (c : Char) : Char :=
  if 65 ≤ c.toNat && c.toNat ≤ 90 then Char.ofNat (c.toNat + 32) else c

/-- ASCII model of Python `str.upper` on one character. -/
def upperChar (c : Char) : Char :=
  if 97 ≤ c.toNat && c.toNat ≤ 122 then Char.ofNat (c.toNat - 32) else c

/-- ASCII decimal digit (regex `\d`). -/
def isDigitChar (c : Char) : Bool :=
  48 ≤ c.toNat && c.toNat ≤ 57

/-- ASCII word character (regex `\w`): letter, digit or underscore. -/
def isWordChar (c : Char) : Bool :=
  c == '_' || isDigitChar c || (65 ≤ c.toNat && c.toNat ≤ 90) || (97 ≤ c.toNat && c.toNat ≤ 122)

/-- Python slicing `text[a:b]` for `0 ≤ a, b`. -/
def slice (l : List Char) (a b : Nat) : List Char :=
  (l.drop a).take (b - a)

/-- Python `str.strip()`: drop leading and trailing whitespace. -/
def pystrip (s : List Char) : List Char :=
  ((s.dropWhile isPySpace).reverse.dropWhile isPySpace).reverse

/-- Number of words of `s.strip().split()` (Python `split` with no
arguments): the number of maximal runs of non-whitespace characters. -/
def countWordsAux : List Char → Bool → Nat
  | [], _ => 0
  | c :: rest, inWord =>
    if isPySpace c then countWordsAux rest false
    else (if inWord then 0 else 1) + countWordsAux rest true

/-- `countWords s = len(s.strip().split())` in Python. -/
def countWords (s : List Char) : Nat := countWordsAux s false

/-- Does `hay` contain `needle` as a contiguous substring (Python `in`)? -/
def startsWithChars : List Char → List Char → Bool
  | [], _ => true
  | _ :: _, [] => false
  | n :: ns, h :: hs => n == h && startsWithChars ns hs

/-- Substring containment, Python `needle in hay`. -/
def containsSeq (needle : List Char) : List Char → Bool
  | [] => startsWithChars needle []
  | h :: hs => startsWithChars needle (h :: hs) || containsSeq needle hs

/-- Drop an exact literal from the front of `s`; `none` when `s` does not
start with it. -/
def dropLit : List Char → List Char → Option (List Char)
  | [], s => some s
  | _ :: _, [] => none
  | l :: ls, c :: cs => if l == c then dropLit ls cs else none

/-- Drop a literal case-insensitively (regex `re.IGNORECASE` on a literal). -/
def dropLitCI : List Char → List Char → Option (List Char)
  | [], s => some s
  | _ :: _, [] => none
  | l :: ls, c :: cs => if lowerChar l == lowerChar c then dropLitCI ls cs else none

/-- Fuelled conversion of a natural number to its decimal digits
(model of Python string formatting of an `int`). -/
def natToCharsAux : Nat → Nat → List Char
  | 0, _ => []
  | fuel + 1, n =>
    if n < 10 then [Char.ofNat (48 + n)]
    else natToCharsAux fuel (n / 10) ++ [Char.ofNat (48 + n % 10)]

/-- Decimal digits of `n`. -/
def natToChars (n : Nat) : List Char := natToCharsAux (n + 1) n

/-- Python `int` on a digit string. -/
def digitsToNat (ds : List Char) : Nat :=
  ds.foldl (fun a c => a * 10 + (c.toNat - 48)) 0

/-! ## `bisect.bisect_right` (Python standard library)

`bisect_right(a, x)` is the classic binary search loop:
`lo = 0; hi = len(a); while lo < hi: mid = (lo+hi)//2;`
`if x < a[mid]: hi = mid else: lo = mid+1; return lo`.
The loop is modelled with fuel; `a.length` steps always suffice because
`hi - lo` strictly decreases. -/

def bisectAux (a : List Nat) (x : Nat) : Nat → Nat → Nat → Nat
  | 0, lo, _ => lo
  | fuel + 1, lo, hi =>
    if lo < hi then
      let mid := (lo + hi) / 2
      if x < a.getD mid 0 then bisectAux a x fuel lo mid
      else bisectAux a x fuel (mid + 1) hi
    else lo

/-- Python `bisect.bisect_right(a, x)`. -/
def bisect_right (a : List Nat) (x : Nat) : Nat :=
  bisectAux a x a.length 0 a.length

/-- `search.py` `_position_to_page`: convert a character position to a
1-based page number, `max(1, bisect_right(page_offsets, position) - 1 + 1)`. -/
def position_to_page (position : Nat) (page_offsets : List Nat) : Nat :=
  let page_index : Int := (bisect_right page_offsets position : Int) - 1
  (max 1 (page_index + 1)).toNat

/-! ## Data model -/

/-- One record of the flat search index produced by
`extractor.create_search_index` and loaded by `PDFSearcher`. -/
structure Doc where
  dataset : Nat
  filename : String
  filepath : String
  pages : Nat
  text : List Char
  page_offsets : Option (List Nat)
deriving DecidableEq, Repr

/-- One context entry of a search hit (`contexts` list items). The `page`
key is present only when the document has non-empty page offsets. -/
structure Ctx where
  position : Nat
  context : List Char
  matched : List Char
  page : Option Nat
deriving DecidableEq, Repr

/-- One search hit, keyed by filename for merge operations. -/
structure Hit where
  dataset : Nat
  filename : String
  filepath : String
  pages : Nat
  match_count : Nat
  contexts : List Ctx
deriving DecidableEq, Repr

/-- `ctx["page"] = _position_to_page(...)` is set only `if page_offsets:`
(Python truthiness: `None` and `[]` both skip it). -/
def pageOf (offs : Option (List Nat)) (pos : Nat) : Option Nat :=
  match offs with
  | some l => if l.isEmpty then none else some (position_to_page pos l)
  | none => none

/-! ## Literal regex matching (`re.escape(term)` patterns)

`re.finditer` with an escaped literal pattern yields the non-overlapping
occurrences scanning left to right; with `re.IGNORECASE` comparison is
case-insensitive. -/

/-- Normalise one character for comparison under the case flag. -/
def normChar (case_sensitive : Bool) (c : Char) : Char :=
  if case_sensitive then c else lowerChar c

/-- Does the literal `pat` match `text` at offset `i` (ignoring word
boundaries)?  True only when `i + pat.length ≤ text.length` or `pat = []`. -/
def coreMatchAt (pat text : List Char) (case_sensitive : Bool) (i : Nat) : Bool :=
  ((text.drop i).take pat.length).map (normChar case_sensitive)
    == pat.map (normChar case_sensitive)

/-- Regex `\b` word boundary at offset `i` of `text` (ASCII `\w`). -/
def boundaryAt (text : List Char) (i : Nat) : Bool :=
  let left := if 0 < i && decide (i - 1 < text.length) then isWordChar (text.getD (i - 1) ' ') else false
  let right := if i < text.length then isWordChar (text.getD i ' ') else false
  left != right

/-- Full match test at one offset: the literal comparison, plus `\b`
boundaries when `whole_word` is set (pattern `\b escaped \b`). -/
def matchAt (pat text : List Char) (case_sensitive whole_word : Bool) (i : Nat) : Bool :=
  coreMatchAt pat text case_sensitive i &&
    (!whole_word || (boundaryAt text i && boundaryAt text (i + pat.length)))

/-- Fuelled scan of `re.finditer`: collect `(start, end)` spans of
non-overlapping matches left to right, advancing past each match
(by one position for an empty pattern). -/
def findIterAux (pat text : List Char) (cs ww : Bool) : Nat → Nat → List (Nat × Nat)
  | 0, _ => []
  | fuel + 1, i =>
    if i ≤ text.length then
      if matchAt pat text cs ww i then
        (i, i + pat.length) :: findIterAux pat text cs ww fuel (i + max 1 pat.length)
      else findIterAux pat text cs ww fuel (i + 1)
    else []

/-- `[(m.start(), m.end()) for m in re.finditer(re.escape(pat), text, flags)]`. -/
def findIter (pat text : List Char) (cs ww : Bool) : List (Nat × Nat) :=
  findIterAux pat text cs ww (text.length + 2) 0

/-! ## `PDFSearcher.search` (in-memory backend) -/

/-- Build the bounded context window `text[max(0,s-cc):min(len,e+cc)]` with
`...` markers at clipped boundaries. -/
def windowCtx (text : List Char) (cc s e : Nat) : List Char :=
  let a := s - cc
  let b := min text.length (e + cc)
  let ctx := slice text a b
  let ctx := if 0 < a then "...".toList ++ ctx else ctx
  if b < text.length then ctx ++ "...".toList else ctx

/-- One `contexts` entry of `PDFSearcher.search` for the match span `m`. -/
def searchCtx (doc : Doc) (cc : Nat) (m : Nat × Nat) : Ctx :=
  { position := m.1
    context := windowCtx doc.text cc m.1 m.2
    matched := slice doc.text m.1 m.2
    page := pageOf doc.page_offsets m.1 }

/-- `PDFSearcher.search(query, case_sensitive, whole_word, context_chars)`:
scan every document, one hit per document with at least one match. -/
def search (data : List Doc) (query : List Char) (cs ww : Bool) (cc : Nat) : List Hit :=
  data.filterMap (fun doc =>
    let ms := findIter query doc.text cs ww
    if ms.isEmpty then none
    else some
      { dataset := doc.dataset
        filename := doc.filename
        filepath := doc.filepath
        pages := doc.pages
        match_count := ms.length
        contexts := ms.map (searchCtx doc cc) })

/-- Filenames of a result list (`{r["filename"] for r in results}` carries
only membership information, used below via list membership). -/
def filenamesOf (hits : List Hit) : List String :=
  hits.map (fun h => h.filename)

/-- Merge step of the OR branch of `search_multiple`: a Python dict keyed by
filename in insertion order, summing `match_count` and concatenating
`contexts` on collision. -/
def mergeHit (acc : List Hit) (r : Hit) : List Hit :=
  if acc.any (fun a => a.filename == r.filename) then
    acc.map (fun a =>
      if a.filename == r.filename then
        { a with match_count := a.match_count + r.match_count,
                 contexts := a.contexts ++ r.contexts }
      else a)
  else acc ++ [r]

/-- `PDFSearcher.search_multiple(queries, operator)`.  The AND branch
searches the first term, intersects the filename sets of the remaining
terms, and keeps the first term's hits whose filename survives; the OR
branch merges per-filename. `queries[0]` on an empty list raises in
Python; the empty case is modelled as no results. -/
def search_multiple (data : List Doc) (queries : List (List Char)) (operator : List Char) : List Hit :=
  if operator.map upperChar == "AND".toList then
    match queries with
    | [] => []
    | q1 :: rest =>
      let results := search data q1 false false 300
      let result_files := rest.foldl
        (fun acc q => acc.filter (fun f => (search data q false false 300).any (fun h => h.filename == f)))
        (filenamesOf results)
      results.filter (fun r => result_files.contains r.filename)
  else
    queries.foldl (fun acc q => (search data q false false 300).foldl mergeHit acc) []

/-! ## `PDFSearcher.search_proximity` -/

/-- The body of the inner pair loop: a pair of spans qualifies when the
spans are disjoint (`start < end` after `start = min(e1,e2)`,
`end = max(s1,s2)`) and the word count of the text strictly between them
is at most `max_distance`; a qualifying pair is recorded as
`(min(s1,s2), max(e1,e2))`. -/
def qualifyPair (text : List Char) (max_distance : Nat) (p1 p2 : Nat × Nat) : Option (Nat × Nat) :=
  let s1 := p1.1; let e1 := p1.2
  let s2 := p2.1; let e2 := p2.2
  let start := min e1 e2
  let stop := max s1 s2
  if stop ≤ start then none
  else if countWords (slice text start stop) ≤ max_distance then
    some (min s1 s2, max e1 e2)
  else none

/-- The nested pair loops of `search_proximity`: for each occurrence of
term1 (outer), all occurrences of term2 (inner) are tested; after each
full inner loop the outer loop stops once at least 50 pairs are found. -/
def proxLoop (text : List Char) (max_distance : Nat) (positions2 : List (Nat × Nat)) :
    List (Nat × Nat) → List (Nat × Nat) → List (Nat × Nat)
  | [], acc => acc
  | p1 :: rest, acc =>
    let acc2 := acc ++ positions2.filterMap (qualifyPair text max_distance p1)
    if 50 ≤ acc2.length then acc2 else proxLoop text max_distance positions2 rest acc2

/-- One `contexts` entry of a proximity hit for the recorded pair. -/
def proxCtx (doc : Doc) (t1 t2 : List Char) (cc : Nat) (pr : Nat × Nat) : Ctx :=
  { position := pr.1
    context := windowCtx doc.text cc pr.1 pr.2
    matched := t1 ++ "...".toList ++ t2
    page := pageOf doc.page_offsets pr.1 }

/-- `PDFSearcher.search_proximity(term1, term2, max_distance, ...)`. -/
def search_proximity (data : List Doc) (t1 t2 : List Char) (max_distance : Nat)
    (cs : Bool) (cc : Nat) : List Hit :=
  data.filterMap (fun doc =>
    let positions1 := findIter t1 doc.text cs false
    let positions2 := findIter t2 doc.text cs false
    if positions1.isEmpty || positions2.isEmpty then none
    else
      let found_pairs := proxLoop doc.text max_distance positions2 positions1 []
      if found_pairs.isEmpty then none
      else some
        { dataset := doc.dataset
          filename := doc.filename
          filepath := doc.filepath
          pages := doc.pages
          match_count := found_pairs.length
          contexts := found_pairs.map (proxCtx doc t1 t2 cc) })

/-! ## Query parsing (`_parse_and_search`)

The parser is a sequence of regex rewrites.  Each regex of the source is a
literal scan; the fuelled functions below implement the same leftmost,
non-overlapping, greedy semantics character by character. -/

/-- Given the characters after an opening quote, find the next quote:
returns the (possibly empty) content before it and the characters after
it.  `none` when no closing quote exists. -/
def findClose : List Char → Option (List Char × List Char)
  | [] => none
  | c :: rest =>
    if c == '"' then some ([], rest)
    else
      match findClose rest with
      | some (content, after) => some (c :: content, after)
      | none => none

/-- The opaque placeholder `__PH<k>__` inserted for the `k`-th phrase. -/
def placeholder (k : Nat) : List Char :=
  "__PH".toList ++ natToChars k ++ "__".toList

/-- Scan for `re.sub(r'"([^"]+)"', ...)`: each quoted phrase with
non-empty content is replaced by a placeholder; the phrase content
(without quotes) is collected in order. -/
def phraseScanAux : Nat → Nat → List Char → List Char × List (List Char)
  | 0, _, s => (s, [])
  | fuel + 1, k, s =>
    match s with
    | [] => ([], [])
    | c :: rest =>
      if c == '"' then
        match findClose rest with
        | some (content, after) =>
          if content.isEmpty then
            let r := phraseScanAux fuel k rest
            (c :: r.1, r.2)
          else
            let r := phraseScanAux fuel (k + 1) after
            (placeholder k ++ r.1, content :: r.2)
        | none =>
          let r := phraseScanAux fuel k rest
          (c :: r.1, r.2)
      else
        let r := phraseScanAux fuel k rest
        (c :: r.1, r.2)

/-- Step 1 of `_parse_and_search`: extract quoted phrases (content only,
`m.group(1)`) into placeholders. -/
def extract_phrases (q : List Char) : List Char × List (List Char) :=
  phraseScanAux (q.length + 1) 0 q

/-- Match `__PH(\d+)__` at the head of `s`; returns the phrase index and
the rest. -/
def matchPHAt (s : List Char) : Option (Nat × List Char) :=
  match dropLit "__PH".toList s with
  | none => none
  | some r1 =>
    let dg := r1.takeWhile isDigitChar
    let r2 := r1.dropWhile isDigitChar
    if dg.isEmpty then none
    else
      match dropLit "__".toList r2 with
      | none => none
      | some r3 => some (digitsToNat dg, r3)

/-- `restore`: `re.sub(r"__PH(\d+)__", lambda m: phrases[int(m.group(1))], s)`.
A phrase index beyond the list (possible only when placeholder-shaped text
occurs verbatim in the user query, where Python would raise `IndexError`)
is modelled as the empty phrase. -/
def restoreAux (phrases : List (List Char)) : Nat → List Char → List Char
  | 0, s => s
  | fuel + 1, s =>
    match s with
    | [] => []
    | c :: rest =>
      match matchPHAt s with
      | some (n, after) => phrases.getD n [] ++ restoreAux phrases fuel after
      | none => c :: restoreAux phrases fuel rest

/-- Replace placeholders by their phrases. -/
def restore (phrases : List (List Char)) (s : List Char) : List Char :=
  restoreAux phrases (s.length + 1) s

/-- Match `(\S+)\s+NEAR/(\d+)\s+(\S+)` (case-insensitive) at the head of
`s`: greedy runs for `\S+`, `\s+`, `\d+` (backtracking can never succeed
where the maximal runs fail for this pattern).  Returns the three groups
and the rest after the match. -/
def matchNearAt (s : List Char) : Option (List Char × List Char × List Char × List Char) :=
  let g1 := s.takeWhile (fun c => !isPySpace c)
  let r1 := s.dropWhile (fun c => !isPySpace c)
  if g1.isEmpty then none
  else
    let sp1 := r1.takeWhile isPySpace
    let r2 := r1.dropWhile isPySpace
    if sp1.isEmpty then none
    else
      match dropLitCI "NEAR/".toList r2 with
      | none => none
      | some r3 =>
        let dg := r3.takeWhile isDigitChar
        let r4 := r3.dropWhile isDigitChar
        if dg.isEmpty then none
        else
          let sp2 := r4.takeWhile isPySpace
          let r5 := r4.dropWhile isPySpace
          if sp2.isEmpty then none
          else
            let g3 := r5.takeWhile (fun c => !isPySpace c)
            let r6 := r5.dropWhile (fun c => !isPySpace c)
            if g3.isEmpty then none else some (g1, dg, g3, r6)

/-- One extracted proximity clause. -/
structure ProxPair where
  term1 : List Char
  term2 : List Char
  distance : Nat
deriving DecidableEq, Repr

/-- Step 2 of `_parse_and_search`: `re.sub` of the NEAR pattern with `""`,
collecting `{"term1": restore(g1), "term2": restore(g3), "distance": int(g2)}`
for each match, scanning left to right and continuing after each match. -/
def nearScanAux (phrases : List (List Char)) : Nat → List Char → List Char × List ProxPair
  | 0, s => (s, [])
  | fuel + 1, s =>
    match s with
    | [] => ([], [])
    | c :: rest =>
      match matchNearAt s with
      | some (g1, dg, g3, after) =>
        let r := nearScanAux phrases fuel after
        (r.1, { term1 := restore phrases g1, term2 := restore phrases g3,
                distance := digitsToNat dg } :: r.2)
      | none =>
        let r := nearScanAux phrases fuel rest
        (c :: r.1, r.2)

/-- NEAR extraction: returns the working string with matches removed and
the proximity pairs in order. -/
def near_extract (phrases : List (List Char)) (s : List Char) : List Char × List ProxPair :=
  nearScanAux phrases (s.length + 1) s

/-- Match `\s+OP\s+` (case-insensitive, greedy) at the head of `s`;
returns the rest after the match. -/
def matchOpAt (op : List Char) (s : List Char) : Option (List Char) :=
  let sp1 := s.takeWhile isPySpace
  let r1 := s.dropWhile isPySpace
  if sp1.isEmpty then none
  else
    match dropLitCI op r1 with
    | none => none
    | some r2 =>
      let sp2 := r2.takeWhile isPySpace
      let r3 := r2.dropWhile isPySpace
      if sp2.isEmpty then none else some r3

/-- `re.search(r"\s+OP\s+", s, re.IGNORECASE) is not None`. -/
def hasOpAux (op : List Char) : Nat → List Char → Bool
  | 0, _ => false
  | fuel + 1, s =>
    match s with
    | [] => false
    | _ :: rest => (matchOpAt op s).isSome || hasOpAux op fuel rest

/-- Does `s` contain a whitespace-delimited occurrence of `op`? -/
def hasOp (op s : List Char) : Bool :=
  hasOpAux op s.length s

/-- `re.split(r"\s+OP\s+", s, re.IGNORECASE)`: pieces between the
non-overlapping leftmost matches. -/
def splitOpAux (op : List Char) : Nat → List Char → List Char → List (List Char)
  | 0, acc, s => [acc ++ s]
  | fuel + 1, acc, s =>
    match s with
    | [] => [acc]
    | c :: rest =>
      match matchOpAt op s with
      | some after => acc :: splitOpAux op fuel [] after
      | none => splitOpAux op fuel (acc ++ [c]) rest

/-- Split on the operator pattern. -/
def splitOp (op s : List Char) : List (List Char) :=
  splitOpAux op (s.length + 1) [] s

/-- `[restore(t.strip()) for t in splitOp(...) if t.strip()]`. -/
def splitTerms (phrases : List (List Char)) (op w : List Char) : List (List Char) :=
  (splitOp op w).filterMap (fun t =>
    if (pystrip t).isEmpty then none else some (restore phrases (pystrip t)))

/-- Step 3 of `_parse_and_search`: NOT handling.  The trigger is the
five-character substring `" NOT "` of the upper-cased working string; the
split itself uses `\s+NOT\s+`.  Returns the new working string
(`parts[0].strip()`) and the restored, stripped, non-empty exclusion
terms. -/
def notSplit (phrases : List (List Char)) (w : List Char) : List Char × List (List Char) :=
  if containsSeq " NOT ".toList (w.map upperChar) then
    let parts := splitOp "NOT".toList w
    (pystrip (parts.headD []),
     (parts.drop 1).filterMap (fun t =>
       if (pystrip t).isEmpty then none else some (restore phrases (pystrip t))))
  else (w, [])

/-- Step 4 of `_parse_and_search`: AND is tested before OR; with neither
operator, the working string restores to a single term (empty string
searches nothing). -/
def stage4 (data : List Doc) (phrases : List (List Char)) (w : List Char) : List Hit :=
  if hasOp "AND".toList w then
    search_multiple data (splitTerms phrases "AND".toList w) "AND".toList
  else if hasOp "OR".toList w then
    search_multiple data (splitTerms phrases "OR".toList w) "OR".toList
  else
    let t := restore phrases w
    if t.isEmpty then [] else search data t false false 300

/-- Step 5 of `_parse_and_search`: drop every hit whose filename appears
in some exclusion term's own single-term search result. -/
def applyNot (data : List Doc) (notTerms : List (List Char)) (results : List Hit) : List Hit :=
  results.filter (fun r =>
    !(notTerms.any (fun nt =>
        (search data nt false false 300).any (fun h => h.filename == r.filename))))

/-- Insertion into `result_map = {r["filename"]: r for r in results}`:
replacement on key collision, first-insertion position kept. -/
def dictInsert (acc : List Hit) (r : Hit) : List Hit :=
  if acc.any (fun a => a.filename == r.filename) then
    acc.map (fun a => if a.filename == r.filename then r else a)
  else acc ++ [r]

/-- Step 6 of `_parse_and_search`: merge proximity hits into the primary
results by filename, summing counts and concatenating contexts, appending
new filenames. -/
def proxMerge (data : List Doc) (pairs : List ProxPair) (results : List Hit) : List Hit :=
  let init := results.foldl dictInsert []
  pairs.foldl
    (fun acc pp =>
      (search_proximity data pp.term1 pp.term2 pp.distance false 300).foldl mergeHit acc)
    init

/-- Step 5 dispatcher (`if not_terms:`). -/
def step5 (data : List Doc) (notTerms : List (List Char)) (results : List Hit) : List Hit :=
  if notTerms.isEmpty then results else applyNot data notTerms results

/-- Step 6 dispatcher (`if proximity_pairs:`). -/
def step6 (data : List Doc) (pairs : List ProxPair) (results : List Hit) : List Hit :=
  if pairs.isEmpty then results else proxMerge data pairs results

/-- `_parse_and_search(searcher, query)` over the in-memory backend:
phrases are extracted first, then NEAR pairs, then the NOT split; the
remaining working string runs through stage 4, exclusions are applied,
and proximity hits merged. -/
def parse_and_search (data : List Doc) (query : List Char) : List Hit :=
  step6 data
    (near_extract (extract_phrases query).2 (extract_phrases query).1).2
    (step5 data
      (notSplit (extract_phrases query).2
        (pystrip (near_extract (extract_phrases query).2 (extract_phrases query).1).1)).2
      (stage4 data (extract_phrases query).2
        (pystrip (notSplit (extract_phrases query).2
          (pystrip (near_extract (extract_phrases query).2
            (extract_phrases query).1).1)).1)))

/-! ## `SQLiteSearcher` (persistent backend) -/

/-- Phrase extraction of `_translate_query`: same scan, but the collected
phrase keeps its quotes (`m.group(0)`). -/
def phraseScanQAux : Nat → Nat → List Char → List Char × List (List Char)
  | 0, _, s => (s, [])
  | fuel + 1, k, s =>
    match s with
    | [] => ([], [])
    | c :: rest =>
      if c == '"' then
        match findClose rest with
        | some (content, after) =>
          if content.isEmpty then
            let r := phraseScanQAux fuel k rest
            (c :: r.1, r.2)
          else
            let r := phraseScanQAux fuel (k + 1) after
            (placeholder k ++ r.1, ('"' :: content ++ ['"']) :: r.2)
        | none =>
          let r := phraseScanQAux fuel k rest
          (c :: r.1, r.2)
      else
        let r := phraseScanQAux fuel k rest
        (c :: r.1, r.2)

/-- Quoted-phrase extraction keeping the quotes. -/
def extract_phrases_q (q : List Char) : List Char × List (List Char) :=
  phraseScanQAux (q.length + 1) 0 q

/-- `NEAR/N` rewrite of `_translate_query`: each match becomes
`NEAR(t1 t2, n)` with the groups restored. -/
def nearSubAux (phrases : List (List Char)) : Nat → List Char → List Char
  | 0, s => s
  | fuel + 1, s =>
    match s with
    | [] => []
    | c :: rest =>
      match matchNearAt s with
      | some (g1, dg, g3, after) =>
        "NEAR(".toList ++ restore phrases g1 ++ [' '] ++ restore phrases g3
          ++ ", ".toList ++ dg ++ [')'] ++ nearSubAux phrases fuel after
      | none => c :: nearSubAux phrases fuel rest

/-- The NEAR rewrite over the whole working string. -/
def near_sub (phrases : List (List Char)) (s : List Char) : List Char :=
  nearSubAux phrases (s.length + 1) s

/-- `re.sub(r"\s+AND\s+", " ", s, re.IGNORECASE)` (FTS5 implicit AND). -/
def andToSpaceAux : Nat → List Char → List Char
  | 0, s => s
  | fuel + 1, s =>
    match s with
    | [] => []
    | c :: rest =>
      match matchOpAt "AND".toList s with
      | some after => ' ' :: andToSpaceAux fuel after
      | none => c :: andToSpaceAux fuel rest

/-- Remove explicit AND operators. -/
def and_to_space (s : List Char) : List Char :=
  andToSpaceAux (s.length + 1) s

/-- `SQLiteSearcher._translate_query`. -/
def translate_query (q : List Char) : List Char :=
  let pr := extract_phrases_q q
  pystrip (restore pr.2 (and_to_space (near_sub pr.2 pr.1)))

/-- Fallback sanitisation of `SQLiteSearcher.search`:
`re.sub(r'[^\w\s"]', '', query).strip()`. -/
def sanitize (q : List Char) : List Char :=
  pystrip (q.filter (fun c => isWordChar c || isPySpace c || c == '"'))

/-- `SQLiteSearcher.search`, with the FTS5 engine abstracted as an oracle
`exec` that either returns `(results, total)` or fails with a syntax
error (`sqlite3.OperationalError`).  On an error the query is retried
once with the sanitised bare-term version when that is non-empty and
different; any remaining failure yields `([], 0)`. -/
def sqlite_search (exec : List Char → Except Unit (List Hit × Nat)) (q : List Char) :
    List Hit × Nat :=
  let fts_query := translate_query q
  if fts_query.isEmpty then ([], 0)
  else
    match exec fts_query with
    | .ok r => r
    | .error _ =>
      let simple := sanitize q
      if simple ≠ [] ∧ simple ≠ fts_query then
        match exec simple with
        | .ok r => r
        | .error _ => ([], 0)
      else ([], 0)

/-! ## Index builder (`build_index.py`) -/

/-- An input record of the corpus JSON; every field may be absent. -/
structure RawDoc where
  dataset : Option Nat
  filename : Option String
  filepath : Option String
  pages : Option Nat
  page_offsets : Option (List Nat)
  text : Option String
deriving DecidableEq, Repr

/-- A row of the `documents` metadata table. -/
structure DocRow where
  id : Nat
  dataset : Nat
  filename : String
  filepath : String
  pages : Nat
  page_offsets : Option (List Nat)
deriving DecidableEq, Repr

/-- The builder state: committed tables plus the pending insert buffers. -/
structure BuildState where
  db_documents : List DocRow
  db_fts : List (Nat × String)
  doc_rows : List DocRow
  fts_rows : List (Nat × String)
  errors : Nat
deriving DecidableEq, Repr

/-- `BATCH_SIZE = 10000`. -/
def BATCH_SIZE : Nat := 10000

/-- Commit the pending buffers (`executemany` + `commit`). -/
def flushBatch (st : BuildState) : BuildState :=
  { st with db_documents := st.db_documents ++ st.doc_rows,
            db_fts := st.db_fts ++ st.fts_rows,
            doc_rows := [], fts_rows := [] }

/-- The row pair built for document `i` (0-based input position): `doc_id
= i + 1`; `doc["dataset"]` etc. raise `KeyError` when absent, caught by
the `except` clause, so `none` is returned exactly when a required field
is missing.  `page_offsets` is serialised only when truthy (non-`None`,
non-empty); `text` defaults to `""` via `doc.get`. -/
def rowOf (i : Nat) (d : RawDoc) : Option (DocRow × (Nat × String)) :=
  match d.dataset, d.filename, d.filepath, d.pages with
  | some ds, some fn, some fp, some pg =>
    some
      ({ id := i + 1, dataset := ds, filename := fn, filepath := fp, pages := pg,
         page_offsets :=
           match d.page_offsets with
           | some l => if l.isEmpty then none else some l
           | none => none },
       (i + 1, d.text.getD ""))
  | _, _, _, _ => none

/-- A required field (`dataset`, `filename`, `filepath`, `pages`) is
missing. -/
def requiredMissing (d : RawDoc) : Bool :=
  d.dataset.isNone || d.filename.isNone || d.filepath.isNone || d.pages.isNone

/-- One iteration of the `for i, doc in enumerate(data)` loop. -/
def stepDoc (st : BuildState) (i : Nat) (d : RawDoc) : BuildState :=
  match rowOf i d with
  | some rows =>
    let st2 := { st with doc_rows := st.doc_rows ++ [rows.1],
                         fts_rows := st.fts_rows ++ [rows.2] }
    if BATCH_SIZE ≤ st2.doc_rows.length then flushBatch st2 else st2
  | none => { st with errors := st.errors + 1 }

/-- The document loop, carrying the enumeration index. -/
def buildLoop : BuildState → Nat → List RawDoc → BuildState
  | st, _, [] => st
  | st, i, d :: rest => buildLoop (stepDoc st i d) (i + 1) rest

/-- `build_index`: run the loop from an empty database, then flush the
final partial batch (`if doc_rows:`). -/
def build_index (data : List RawDoc) : BuildState :=
  let st := buildLoop
    { db_documents := [], db_fts := [], doc_rows := [], fts_rows := [], errors := 0 } 0 data
  if st.doc_rows.isEmpty then st else flushBatch st

/-- Enumeration starting at `i` (Python `enumerate`). -/
def enumFrom (i : Nat) : List α → List (Nat × α)
  | [] => []
  | a :: l => (i, a) :: enumFrom (i + 1) l

/-! ## Result assembly (`server.search_api`) -/

/-- The sort key (`sort` query parameter, validated by the route to one of
the three values). -/
inductive SortKey
  | relevance
  | filename
  | dataset
deriving DecidableEq, Repr

/-- The comparison of each `results.sort(...)` call: `relevance` is
`key=match_count, reverse=True`, `filename` ascending, `dataset` the
ascending `(dataset, filename)` pair. -/
def sortLe (k : SortKey) (a b : Hit) : Bool :=
  match k with
  | .relevance => decide (b.match_count ≤ a.match_count)
  | .filename => decide (a.filename ≤ b.filename)
  | .dataset =>
    decide (a.dataset < b.dataset ∨ (a.dataset = b.dataset ∧ a.filename ≤ b.filename))

/-- Stable insertion placing `x` after every earlier element that sorts
before or equal to it. -/
def insertHit (le : Hit → Hit → Bool) (x : Hit) : List Hit → List Hit
  | [] => [x]
  | y :: ys => if le y x then y :: insertHit le x ys else x :: y :: ys

/-- Model of Python's stable `list.sort`.  A stable sort by a total
preorder is uniquely determined, so insertion sort computes the same list
as the source's Timsort. -/
def pySort (le : Hit → Hit → Bool) (l : List Hit) : List Hit :=
  l.foldl (fun acc x => insertHit le x acc) []

/-- The filter chain of `search_api` (dataset equality when given,
`pages >= min_pages`, `pages <= max_pages` when given). -/
def filteredResults (data : List Doc) (q : List Char) (dataset : Option Nat)
    (min_pages : Nat) (max_pages : Option Nat) : List Hit :=
  let results := parse_and_search data q
  let results : List Hit :=
    match dataset with
    | some ds => results.filter (fun r => r.dataset == ds)
    | none => results
  let results := results.filter (fun r => decide (min_pages ≤ r.pages))
  match max_pages with
  | some mp => results.filter (fun r => decide (r.pages ≤ mp))
  | none => results

/-- The JSON body of `/api/search`. -/
structure SearchResponse where
  results : List Hit
  total : Nat
  totalMatches : Nat
  page : Nat
  perPage : Nat
deriving DecidableEq, Repr

/-- Response shaping of one hit: the heavy text is dropped and the
context list capped at 50 entries (`r["contexts"][:50]`). -/
def respEntry (r : Hit) : Hit :=
  { r with contexts := r.contexts.take 50 }

/-- `server.search_api`: search, filter, sort, compute the totals on the
full filtered set, then slice `results[(page-1)*per_page : page*per_page]`. -/
def search_api (data : List Doc) (q : List Char) (page per_page : Nat)
    (dataset : Option Nat) (min_pages : Nat) (max_pages : Option Nat)
    (sort : SortKey) : SearchResponse :=
  let results := pySort (sortLe sort) (filteredResults data q dataset min_pages max_pages)
  let total := results.length
  let totalMatches := (results.map (fun r => r.match_count)).sum
  let start := (page - 1) * per_page
  let page_results := (results.drop start).take per_page
  { results := page_results.map respEntry
    total := total
    totalMatches := totalMatches
    page := page
    perPage := per_page }

/-! # Supporting lemmas -/

theorem getD_mono_of_sorted (a : List Nat) (hs : a.Pairwise (· ≤ ·))
    (i j : Nat) (hij : i ≤ j) (hj : j < a.length) : a.getD i 0 ≤ a.getD j 0 := by
  rcases Nat.lt_or_ge i j with h | h
  · rw [List.getD_eq_getElem a 0 (Nat.lt_trans h hj), List.getD_eq_getElem a 0 hj]
    exact List.pairwise_iff_getElem.mp hs i j (Nat.lt_trans h hj) hj h
  · have heq : i = j := Nat.le_antisymm hij h
    subst heq
    exact Nat.le_refl _

/-- Invariant of the binary-search loop of `bisect_right` on a sorted
list: the result separates the positions whose value is `≤ x` from those
whose value is `> x`. -/
theorem bisectAux_spec (a : List Nat) (x : Nat) (hs : a.Pairwise (· ≤ ·)) :
    ∀ fuel lo hi, hi - lo ≤ fuel → lo ≤ hi → hi ≤ a.length →
      (∀ i, i < lo → a.getD i 0 ≤ x) →
      (∀ i, hi ≤ i → i < a.length → x < a.getD i 0) →
      lo ≤ bisectAux a x fuel lo hi ∧ bisectAux a x fuel lo hi ≤ hi ∧
      (∀ i, i < bisectAux a x fuel lo hi → a.getD i 0 ≤ x) ∧
      (∀ i, bisectAux a x fuel lo hi ≤ i → i < a.length → x < a.getD i 0) := by
  intro fuel
  induction fuel with
  | zero =>
    intro lo hi hfuel hlohi hhi hlo hhi2
    have heq : lo = hi := by omega
    subst heq
    simp only [bisectAux]
    exact ⟨Nat.le_refl _, Nat.le_refl _, hlo, hhi2⟩
  | succ fuel ih =>
    intro lo hi hfuel hlohi hhi hlo hhi2
    by_cases hlt : lo < hi
    · have hmidlt : (lo + hi) / 2 < hi := by omega
      have hmidge : lo ≤ (lo + hi) / 2 := by omega
      by_cases hx : x < a.getD ((lo + hi) / 2) 0
      · have h2 : ∀ i, (lo + hi) / 2 ≤ i → i < a.length → x < a.getD i 0 := by
          intro i hi1 hi2
          exact Nat.lt_of_lt_of_le hx (getD_mono_of_sorted a hs _ i hi1 hi2)
        have hrec := ih lo ((lo + hi) / 2) (by omega) (by omega) (by omega) hlo h2
        have hre : bisectAux a x (fuel + 1) lo hi = bisectAux a x fuel lo ((lo + hi) / 2) := by
          simp only [bisectAux, hlt, if_true, hx]
        rw [hre]
        exact ⟨hrec.1, Nat.le_trans hrec.2.1 (Nat.le_of_lt hmidlt), hrec.2.2⟩
      · have hle2 : a.getD ((lo + hi) / 2) 0 ≤ x := Nat.le_of_not_lt hx
        have h1 : ∀ i, i < (lo + hi) / 2 + 1 → a.getD i 0 ≤ x := by
          intro i hi1
          exact Nat.le_trans (getD_mono_of_sorted a hs i _ (by omega) (by omega)) hle2
        have hrec := ih ((lo + hi) / 2 + 1) hi (by omega) (by omega) hhi h1 hhi2
        have hre : bisectAux a x (fuel + 1) lo hi = bisectAux a x fuel ((lo + hi) / 2 + 1) hi := by
          simp only [bisectAux, hlt, if_true, hx, if_false]
        rw [hre]
        exact ⟨by omega, hrec.2.1, hrec.2.2⟩
    · have heq : lo = hi := by omega
      subst heq
      have hre : bisectAux a x (fuel + 1) lo lo = lo := by
        simp only [bisectAux, hlt]
        simp
      rw [hre]
      exact ⟨Nat.le_refl _, Nat.le_refl _, hlo, hhi2⟩

/-- `bisect_right` on a sorted list: result bounds and the separation
property. -/
theorem bisect_right_spec (a : List Nat) (x : Nat) (hs : a.Pairwise (· ≤ ·)) :
    bisect_right a x ≤ a.length ∧
    (∀ i, i < bisect_right a x → a.getD i 0 ≤ x) ∧
    (∀ i, bisect_right a x ≤ i → i < a.length → x < a.getD i 0) := by
  have h := bisectAux_spec a x hs a.length 0 a.length (by omega) (by omega) (Nat.le_refl _)
    (fun i h => absurd h (Nat.not_lt_zero i))
    (fun i h1 h2 => absurd h2 (Nat.not_lt.mpr h1))
  exact ⟨h.2.1, h.2.2.1, h.2.2.2⟩

/-! # Claims -/

/-- **C1**: for a document whose `page_offsets` is non-decreasing, starts
at 0 and has `page_count` entries, `_position_to_page` maps any character
position `p` to `bisect_right(page_offsets, p) - 1`, clamped to
`[0, page_count - 1]`, reported 1-indexed (`min` and Nat subtraction
realise the clamp), and the resolved page always lies in
`[1, page_count]`. -/
theorem c1_position_to_page (offs : List Nat) (page_count : Nat) (p : Nat)
    (hsorted : offs.Pairwise (· ≤ ·))
    (hhead : offs.head? = some 0)
    (hlen : offs.length = page_count) :
    position_to_page p offs = min (page_count - 1) (bisect_right offs p - 1) + 1 ∧
    1 ≤ position_to_page p offs ∧ position_to_page p offs ≤ page_count := by
  obtain ⟨hle, hbelow, habove⟩ := bisect_right_spec offs p hsorted
  have hlen0 : 0 < offs.length := by
    cases offs with
    | nil => simp at hhead
    | cons a l => simp
  have hget : offs.getD 0 0 = 0 := by
    cases offs with
    | nil => simp at hhead
    | cons a l =>
      simp only [List.head?_cons, Option.some.injEq] at hhead
      simp [hhead]
  have hb1 : 1 ≤ bisect_right offs p := by
    by_contra h
    have h0 : bisect_right offs p = 0 := by omega
    have := habove 0 (by omega) hlen0
    omega
  have hpp : position_to_page p offs = bisect_right offs p := by
    show (max 1 ((bisect_right offs p : Int) - 1 + 1)).toNat = bisect_right offs p
    omega
  rw [hpp]
  omega

/-- Witness for C1: a concrete sorted offset table. -/
theorem c1_position_to_page_witness :
    (([0, 3, 7] : List Nat).Pairwise (· ≤ ·) ∧ ([0, 3, 7] : List Nat).head? = some 0) ∧
    (position_to_page 5 [0, 3, 7] = min (3 - 1) (bisect_right [0, 3, 7] 5 - 1) + 1 ∧
     1 ≤ position_to_page 5 [0, 3, 7] ∧ position_to_page 5 [0, 3, 7] ≤ 3) :=
  ⟨⟨by decide, by decide⟩, c1_position_to_page [0, 3, 7] 3 5 (by decide) (by decide) (by decide)⟩

/-! ## Soundness of the finditer scan and the proximity loops -/

theorem findIterAux_sound (pat text : List Char) (cs ww : Bool) :
    ∀ fuel i s e, (s, e) ∈ findIterAux pat text cs ww fuel i →
      matchAt pat text cs ww s = true ∧ e = s + pat.length := by
  intro fuel
  induction fuel with
  | zero =>
    intro i s e h
    simp [findIterAux] at h
  | succ fuel ih =>
    intro i s e h
    simp only [findIterAux] at h
    by_cases hi : i ≤ text.length
    · rw [if_pos hi] at h
      by_cases hm : matchAt pat text cs ww i
      · rw [if_pos hm] at h
        rcases List.mem_cons.mp h with h1 | h1
        · have hse : s = i ∧ e = i + pat.length := by
            simpa using h1
          rw [hse.1, hse.2]
          exact ⟨hm, rfl⟩
        · exact ih _ _ _ h1
      · rw [if_neg hm] at h
        exact ih _ _ _ h
    · rw [if_neg hi] at h
      simp at h

theorem findIter_sound (pat text : List Char) (cs ww : Bool) (s e : Nat)
    (h : (s, e) ∈ findIter pat text cs ww) :
    matchAt pat text cs ww s = true ∧ e = s + pat.length :=
  findIterAux_sound pat text cs ww _ _ s e h

theorem qualifyPair_sound (text : List Char) (maxd : Nat) (p1 p2 pr : Nat × Nat)
    (h : qualifyPair text maxd p1 p2 = some pr) :
    min p1.2 p2.2 < max p1.1 p2.1 ∧
    countWords (slice text (min p1.2 p2.2) (max p1.1 p2.1)) ≤ maxd := by
  unfold qualifyPair at h
  by_cases h1 : max p1.1 p2.1 ≤ min p1.2 p2.2
  · rw [if_pos h1] at h
    simp at h
  · rw [if_neg h1] at h
    by_cases h2 : countWords (slice text (min p1.2 p2.2) (max p1.1 p2.1)) ≤ maxd
    · exact ⟨Nat.lt_of_not_le h1, h2⟩
    · rw [if_neg h2] at h
      simp at h

/-- Every pair collected by the nested proximity loops comes from one
occurrence span of each term and qualified. -/
theorem proxLoop_mem (text : List Char) (maxd : Nat) (pos2 : List (Nat × Nat)) :
    ∀ ps acc pr, pr ∈ proxLoop text maxd pos2 ps acc →
      pr ∈ acc ∨ ∃ p1 ∈ ps, ∃ p2 ∈ pos2, qualifyPair text maxd p1 p2 = some pr := by
  intro ps
  induction ps with
  | nil =>
    intro acc pr h
    exact Or.inl h
  | cons p1 rest ih =>
    intro acc pr h
    simp only [proxLoop] at h
    by_cases hb : 50 ≤ (acc ++ pos2.filterMap (qualifyPair text maxd p1)).length
    · rw [if_pos hb] at h
      rcases List.mem_append.mp h with h1 | h1
      · exact Or.inl h1
      · obtain ⟨p2, hp2, hq⟩ := List.mem_filterMap.mp h1
        exact Or.inr ⟨p1, List.mem_cons_self _ _, p2, hp2, hq⟩
    · rw [if_neg hb] at h
      rcases ih _ pr h with h1 | h1
      · rcases List.mem_append.mp h1 with h2 | h2
        · exact Or.inl h2
        · obtain ⟨p2, hp2, hq⟩ := List.mem_filterMap.mp h2
          exact Or.inr ⟨p1, List.mem_cons_self _ _, p2, hp2, hq⟩
      · obtain ⟨q1, hq1, hrest⟩ := h1
        exact Or.inr ⟨q1, List.mem_cons_of_mem _ hq1, hrest⟩

/-- The pair count after the loop is bounded by 49 plus the number of
occurrences of the second term: the cutoff is only tested after a full
inner loop, which can add up to `pos2.length` pairs at once. -/
theorem proxLoop_length (text : List Char) (maxd : Nat) (pos2 : List (Nat × Nat)) :
    ∀ ps acc, acc.length ≤ 49 →
      (proxLoop text maxd pos2 ps acc).length ≤ 49 + pos2.length := by
  intro ps
  induction ps with
  | nil =>
    intro acc h
    exact Nat.le_trans h (Nat.le_add_right _ _)
  | cons p1 rest ih =>
    intro acc h
    simp only [proxLoop]
    have hlen := List.length_filterMap_le (qualifyPair text maxd p1) pos2
    have hsplit : (acc ++ pos2.filterMap (qualifyPair text maxd p1)).length
        = acc.length + (pos2.filterMap (qualifyPair text maxd p1)).length :=
      List.length_append _ _
    by_cases hb : 50 ≤ (acc ++ pos2.filterMap (qualifyPair text maxd p1)).length
    · rw [if_pos hb]
      omega
    · rw [if_neg hb]
      refine ih _ ?_
      omega

/-- **C2**: every hit of `search_proximity(t1, t2, N)` on the in-memory
backend exhibits one occurrence of each term in the hit's document with
disjoint spans and at most `N` whitespace-separated words strictly
between the spans; consequently the backend never returns a document
whose minimal word-gap between occurrences of the two terms exceeds `N`. -/
theorem c2_proximity_sound (data : List Doc) (t1 t2 : List Char) (max_distance cc : Nat)
    (r : Hit) (hr : r ∈ search_proximity data t1 t2 max_distance false cc) :
    ∃ doc ∈ data, r.filename = doc.filename ∧
      ∃ s1 s2 : Nat,
        matchAt t1 doc.text false false s1 = true ∧
        matchAt t2 doc.text false false s2 = true ∧
        min (s1 + t1.length) (s2 + t2.length) < max s1 s2 ∧
        countWords (slice doc.text (min (s1 + t1.length) (s2 + t2.length)) (max s1 s2))
          ≤ max_distance := by
  obtain ⟨doc, hdoc, hsome⟩ := List.mem_filterMap.mp hr
  refine ⟨doc, hdoc, ?_⟩
  dsimp only at hsome
  by_cases hempty : (findIter t1 doc.text false false).isEmpty
      || (findIter t2 doc.text false false).isEmpty
  · rw [if_pos hempty] at hsome
    simp at hsome
  · rw [if_neg hempty] at hsome
    by_cases hfe : (proxLoop doc.text max_distance (findIter t2 doc.text false false)
        (findIter t1 doc.text false false) []).isEmpty
    · rw [if_pos hfe] at hsome
      simp at hsome
    · rw [if_neg hfe] at hsome
      have hfn : r.filename = doc.filename := by
        have := Option.some.inj hsome
        rw [← this]
      refine ⟨hfn, ?_⟩
      have hne : proxLoop doc.text max_distance (findIter t2 doc.text false false)
          (findIter t1 doc.text false false) [] ≠ [] := by
        intro hnil
        rw [hnil] at hfe
        simp at hfe
      obtain ⟨pr, hpr⟩ := List.exists_mem_of_ne_nil _ hne
      rcases proxLoop_mem doc.text max_distance _ _ _ _ hpr with hmem | hmem
      · simp at hmem
      · obtain ⟨p1, hp1, p2, hp2, hq⟩ := hmem
        obtain ⟨hm1, he1⟩ := findIter_sound t1 doc.text false false p1.1 p1.2 hp1
        obtain ⟨hm2, he2⟩ := findIter_sound t2 doc.text false false p2.1 p2.2 hp2
        obtain ⟨hdisj, hwords⟩ := qualifyPair_sound doc.text max_distance p1 p2 pr hq
        refine ⟨p1.1, p2.1, hm1, hm2, ?_, ?_⟩
        · rw [← he1, ← he2]
          exact hdisj
        · rw [← he1, ← he2]
          exact hwords

/-- Concrete corpus for the C2 witness: "a x b" has one occurrence of
each term one word apart. -/
def doc2 : Doc :=
  { dataset := 1, filename := "w", filepath := "p", pages := 1,
    text := "a x b".toList, page_offsets := none }

/-- The all-zero hit used as a `headD` default. -/
def dummyHit : Hit :=
  { dataset := 0, filename := "", filepath := "", pages := 0, match_count := 0, contexts := [] }

/-- Witness for C2 at a concrete proximity query. -/
theorem c2_proximity_sound_witness :
    ∃ doc ∈ [doc2],
      ((search_proximity [doc2] "a".toList "b".toList 1 false 300).headD dummyHit).filename
        = doc.filename ∧
      ∃ s1 s2 : Nat,
        matchAt "a".toList doc.text false false s1 = true ∧
        matchAt "b".toList doc.text false false s2 = true ∧
        min (s1 + "a".toList.length) (s2 + "b".toList.length) < max s1 s2 ∧
        countWords (slice doc.text (min (s1 + "a".toList.length) (s2 + "b".toList.length))
          (max s1 s2)) ≤ 1 :=
  c2_proximity_sound [doc2] "a".toList "b".toList 1 300 _ (by decide)

/-- A repeated chunk of text, used to build a pathological document. -/
def repList : Nat → List Char → List Char
  | 0, _ => []
  | n + 1, s => s ++ repList n s

/-- A document with one occurrence of "a" followed by 51 occurrences of
"b", all within 50 words of the "a". -/
def doc4 : Doc :=
  { dataset := 1, filename := "many", filepath := "p", pages := 1,
    text := 'a' :: repList 51 " b".toList, page_offsets := none }

set_option maxRecDepth 40000 in
/-- **C4** counterexample: the 50-pair cutoff of `search_proximity` is
only checked after a complete inner loop over the second term's
occurrences, so a single occurrence of term 1 paired with 51 qualifying
occurrences of term 2 yields a hit with `match_count = 51 > 50`,
refuting the claim that every hit has `match_count ≤ 50`. -/
theorem c4_counterexample :
    (search_proximity [doc4] "a".toList "b".toList 50 false 300).map
      (fun r => r.match_count) = [51] := by
  decide

/-- **C4** (amended): the enumeration short-circuits only between outer
iterations, after the full inner loop for one occurrence of term 1;
hence every hit's `match_count` is at most `49` plus the number of
occurrences of term 2 in the document (rather than at most 50). -/
theorem c4_matchcount_bound (data : List Doc) (t1 t2 : List Char) (max_distance cc : Nat)
    (r : Hit) (hr : r ∈ search_proximity data t1 t2 max_distance false cc) :
    ∃ doc ∈ data, r.filename = doc.filename ∧
      r.match_count ≤ 49 + (findIter t2 doc.text false false).length := by
  obtain ⟨doc, hdoc, hsome⟩ := List.mem_filterMap.mp hr
  refine ⟨doc, hdoc, ?_⟩
  dsimp only at hsome
  by_cases hempty : (findIter t1 doc.text false false).isEmpty
      || (findIter t2 doc.text false false).isEmpty
  · rw [if_pos hempty] at hsome
    simp at hsome
  · rw [if_neg hempty] at hsome
    by_cases hfe : (proxLoop doc.text max_distance (findIter t2 doc.text false false)
        (findIter t1 doc.text false false) []).isEmpty
    · rw [if_pos hfe] at hsome
      simp at hsome
    · rw [if_neg hfe] at hsome
      have hr2 := Option.some.inj hsome
      constructor
      · rw [← hr2]
      · rw [← hr2]
        exact proxLoop_length doc.text max_distance _ _ [] (by simp)

set_option maxRecDepth 40000 in
/-- Witness for the amended C4 bound on the pathological document. -/
theorem c4_matchcount_bound_witness :
    ∃ doc ∈ [doc4],
      ((search_proximity [doc4] "a".toList "b".toList 50 false 300).headD dummyHit).filename
        = doc.filename ∧
      ((search_proximity [doc4] "a".toList "b".toList 50 false 300).headD dummyHit).match_count
        ≤ 49 + (findIter "b".toList doc.text false false).length :=
  c4_matchcount_bound [doc4] "a".toList "b".toList 50 300 _ (by decide)

/-! ## AND intersection (`search_multiple`) -/

/-- Membership in a fold of filters: the element survives iff it was in
the initial list and passes every predicate. -/
theorem mem_foldl_filter {α β : Type} (P : β → α → Bool) :
    ∀ (qs : List β) (init : List α) (f : α),
      (f ∈ qs.foldl (fun acc q => acc.filter (fun g => P q g)) init) ↔
        (f ∈ init ∧ ∀ q ∈ qs, P q f = true) := by
  intro qs
  induction qs with
  | nil =>
    intro init f
    simp
  | cons q rest ih =>
    intro init f
    rw [List.foldl_cons, ih, List.mem_filter]
    constructor
    · rintro ⟨⟨h1, h2⟩, h3⟩
      refine ⟨h1, ?_⟩
      intro q' hq'
      rcases List.mem_cons.mp hq' with rfl | hq'
      · exact h2
      · exact h3 q' hq'
    · rintro ⟨h1, h2⟩
      exact ⟨⟨h1, h2 q (List.mem_cons_self _ _)⟩,
        fun q' hq' => h2 q' (List.mem_cons_of_mem _ hq')⟩

/-- **C3**: for a non-empty term list, the AND branch of
`search_multiple` returns exactly the hits of the first term's search
whose filename also occurs in every other term's search result — each
hit kept verbatim (contexts and match_count from `search(t1)`) — and
every returned hit's filename occurs in each single-term result. -/
theorem c3_search_multiple_and (data : List Doc) (t1 : List Char) (rest : List (List Char)) :
    search_multiple data (t1 :: rest) "AND".toList
      = (search data t1 false false 300).filter
          (fun r => rest.all (fun t => (search data t false false 300).any
            (fun h => h.filename == r.filename))) ∧
    ∀ r ∈ search_multiple data (t1 :: rest) "AND".toList,
      ∀ t ∈ t1 :: rest, ∃ h ∈ search data t false false 300, h.filename = r.filename := by
  have hu : search_multiple data (t1 :: rest) "AND".toList
      = (search data t1 false false 300).filter (fun r =>
          (rest.foldl
            (fun acc q => acc.filter (fun f => (search data q false false 300).any
              (fun h => h.filename == f)))
            (filenamesOf (search data t1 false false 300))).contains r.filename) := rfl
  have hagree : ∀ r ∈ search data t1 false false 300,
      ((rest.foldl
          (fun acc q => acc.filter (fun f => (search data q false false 300).any
            (fun h => h.filename == f)))
          (filenamesOf (search data t1 false false 300))).contains r.filename)
        = rest.all (fun t => (search data t false false 300).any
            (fun h => h.filename == r.filename)) := by
    intro r hr
    rw [Bool.eq_iff_iff]
    constructor
    · intro hc
      have hmem : r.filename ∈ rest.foldl
          (fun acc q => acc.filter (fun f => (search data q false false 300).any
            (fun h => h.filename == f)))
          (filenamesOf (search data t1 false false 300)) := by
        rw [← List.elem_iff]
        exact hc
      have := (mem_foldl_filter
        (fun q f => (search data q false false 300).any (fun h => h.filename == f))
        rest (filenamesOf (search data t1 false false 300)) r.filename).mp hmem
      rw [List.all_eq_true]
      intro t ht
      exact this.2 t ht
    · intro hall
      have hmem : r.filename ∈ rest.foldl
          (fun acc q => acc.filter (fun f => (search data q false false 300).any
            (fun h => h.filename == f)))
          (filenamesOf (search data t1 false false 300)) := by
        refine (mem_foldl_filter _ rest _ r.filename).mpr ⟨?_, ?_⟩
        · exact List.mem_map_of_mem (fun h => h.filename) hr
        · rw [List.all_eq_true] at hall
          exact hall
      rw [← List.elem_iff] at hmem
      exact hmem
  have heq : search_multiple data (t1 :: rest) "AND".toList
      = (search data t1 false false 300).filter
          (fun r => rest.all (fun t => (search data t false false 300).any
            (fun h => h.filename == r.filename))) := by
    rw [hu]
    exact List.filter_congr hagree
  refine ⟨heq, ?_⟩
  intro r hrmem t ht
  rw [heq] at hrmem
  obtain ⟨hr1, hall⟩ := List.mem_filter.mp hrmem
  rcases List.mem_cons.mp ht with rfl | ht2
  · exact ⟨r, hr1, rfl⟩
  · rw [List.all_eq_true] at hall
    have hany := hall t ht2
    rw [List.any_eq_true] at hany
    obtain ⟨h, hh, hbeq⟩ := hany
    exact ⟨h, hh, by simpa using hbeq⟩

/-- Witness for C3 (no top-level hypothesis; concrete instantiation). -/
theorem c3_search_multiple_and_witness :
    search_multiple [doc2] ["a".toList, "b".toList] "AND".toList
      = (search [doc2] "a".toList false false 300).filter
          (fun r => ["b".toList].all (fun t => (search [doc2] t false false 300).any
            (fun h => h.filename == r.filename))) ∧
    ∀ r ∈ search_multiple [doc2] ["a".toList, "b".toList] "AND".toList,
      ∀ t ∈ ["a".toList, "b".toList],
        ∃ h ∈ search [doc2] t false false 300, h.filename = r.filename :=
  c3_search_multiple_and [doc2] "a".toList ["b".toList]

/-! ## Quoted phrases and operator precedence (`_parse_and_search`) -/

theorem findClose_no_quote (content : List Char) (h : '"' ∉ content) :
    findClose (content ++ ['"']) = some (content, []) := by
  induction content with
  | nil => rfl
  | cons c cs ih =>
    have hc : c ≠ '"' := fun hq => h (hq ▸ List.mem_cons_self _ _)
    have hcs : '"' ∉ cs := fun hm => h (List.mem_cons_of_mem _ hm)
    rw [List.cons_append]
    simp only [findClose]
    rw [if_neg (by simp [hc])]
    rw [ih hcs]

theorem phraseScanAux_nil (fuel k : Nat) : phraseScanAux fuel k [] = ([], []) := by
  cases fuel with
  | zero => rfl
  | succ n => rfl

/-- A query consisting of one quoted phrase with non-empty, quote-free
content extracts to the single placeholder `__PH0__` with the content as
the only phrase. -/
theorem extract_single_phrase (content : List Char) (h1 : content ≠ []) (h2 : '"' ∉ content) :
    extract_phrases ('"' :: content ++ ['"']) = ("__PH0__".toList, [content]) := by
  have hemp : content.isEmpty = false := by
    cases content with
    | nil => exact absurd rfl h1
    | cons a l => rfl
  show phraseScanAux (('"' :: content ++ ['"']).length + 1) 0 ('"' :: (content ++ ['"']))
      = ("__PH0__".toList, [content])
  have hlen : ('"' :: content ++ ['"']).length + 1 = content.length + 2 + 1 := by
    simp
  rw [hlen]
  simp only [phraseScanAux]
  rw [if_pos (show (('"' : Char) == '"') = true from rfl)]
  rw [findClose_no_quote content h2]
  simp only [hemp, Bool.false_eq_true, if_false]
  simp only [List.append_nil]
  rfl

theorem near_extract_ph0 (phrases : List (List Char)) :
    near_extract phrases "__PH0__".toList = ("__PH0__".toList, []) := rfl

theorem pystrip_ph0 : pystrip "__PH0__".toList = "__PH0__".toList := rfl

theorem notSplit_ph0 (c : List Char) :
    notSplit [c] "__PH0__".toList = ("__PH0__".toList, []) := rfl

theorem step5_nil (data : List Doc) (r : List Hit) : step5 data [] r = r := rfl

theorem step6_nil (data : List Doc) (r : List Hit) : step6 data [] r = r := rfl

theorem restore_single (c : List Char) : restore [c] "__PH0__".toList = c := by
  show c ++ ([] : List Char) = c
  exact List.append_nil c

/-- **C5**: a query that is exactly one quoted phrase whose content
contains the operator keyword `" AND "` (and more generally any
quote-free non-empty content) is executed as a single literal search for
the phrase content: the embedded operator is never interpreted, because
the phrase is replaced by an opaque placeholder before any operator
stage runs. -/
theorem c5_phrase_protected (data : List Doc) (content : List Char)
    (h1 : content ≠ []) (h2 : '"' ∉ content)
    (h3 : containsSeq " AND ".toList content = true) :
    parse_and_search data ('"' :: content ++ ['"'])
      = search data content false false 300 := by
  have hstep : parse_and_search data ('"' :: content ++ ['"'])
      = stage4 data [content] "__PH0__".toList := by
    unfold parse_and_search
    rw [extract_single_phrase content h1 h2]
    dsimp only
    rw [near_extract_ph0]
    dsimp only
    rw [pystrip_ph0, notSplit_ph0]
    dsimp only
    rw [pystrip_ph0, step5_nil, step6_nil]
  rw [hstep]
  have hemp : content.isEmpty = false := by
    cases content with
    | nil => exact absurd rfl h1
    | cons a l => rfl
  unfold stage4
  rw [if_neg (by decide), if_neg (by decide)]
  rw [restore_single]
  rw [if_neg (by simp [hemp])]

/-- Witness for C5: the phrase content "x AND y" contains " AND ". -/
theorem c5_phrase_protected_witness :
    ("x AND y".toList ≠ [] ∧ containsSeq " AND ".toList "x AND y".toList = true) ∧
    parse_and_search [doc2] ('"' :: "x AND y".toList ++ ['"'])
      = search [doc2] "x AND y".toList false false 300 :=
  ⟨⟨by decide, by decide⟩,
    c5_phrase_protected [doc2] "x AND y".toList (by decide) (by decide) (by decide)⟩

/-- **C6**: when the working string (the non-NOT segment reaching step 4)
contains both a whitespace-delimited AND and a whitespace-delimited OR,
the AND test runs first: the segment is split on AND and combined with
the AND operator, and OR is not treated as an operator. -/
theorem c6_and_precedence (data : List Doc) (phrases : List (List Char)) (w : List Char)
    (hand : hasOp "AND".toList w = true) (_hor : hasOp "OR".toList w = true) :
    stage4 data phrases w
      = search_multiple data (splitTerms phrases "AND".toList w) "AND".toList := by
  unfold stage4
  rw [if_pos hand]

/-- Witness for C6: a working string containing both operators. -/
theorem c6_and_precedence_witness :
    (hasOp "AND".toList "a AND b OR c".toList = true ∧
     hasOp "OR".toList "a AND b OR c".toList = true) ∧
    stage4 [doc2] [] "a AND b OR c".toList
      = search_multiple [doc2] (splitTerms [] "AND".toList "a AND b OR c".toList) "AND".toList :=
  ⟨⟨by decide, by decide⟩, c6_and_precedence [doc2] [] "a AND b OR c".toList (by decide) (by decide)⟩

/-! ## NOT exclusion (`_parse_and_search` steps 3 and 5) -/

/-- A document used for the C7 counterexample: its text is exactly
`xyz`. -/
def doc7 : Doc :=
  { dataset := 1, filename := "X", filepath := "p", pages := 1,
    text := "xyz".toList, page_offsets := none }

/-- **C7** counterexample: the query `xyz⟨tab⟩NOT⟨tab⟩qqq` contains a
whole-word, case-insensitive `NOT` outside any quoted phrase, but the
parser's NOT detection requires the literal single-space substring
`" NOT "`, so no exclusion handling happens: the whole string is
searched as one literal term and nothing is found.  Under the claim the
primary segment `xyz` would be executed (one hit) and the exclusion term
`qqq` would drop nothing, so the hit would be returned. -/
theorem c7_counterexample :
    parse_and_search [doc7] "xyz\tNOT\tqqq".toList = [] ∧
    (search [doc7] "xyz".toList false false 300).map (fun r => r.filename) = ["X"] ∧
    search [doc7] "qqq".toList false false 300 = [] ∧
    applyNot [doc7] ["qqq".toList] (search [doc7] "xyz".toList false false 300)
      = search [doc7] "xyz".toList false false 300 := by
  decide

/-- The amended C7 property: whenever the stripped working string left by
phrase and NEAR extraction contains the literal substring `" NOT "` in
its upper-cased form, everything after the first whitespace-delimited NOT
becomes the exclusion term list, only the part before it reaches stage 4
as the primary query, and the result then flows through the exclusion
filter and the proximity merge. -/
def notExclusionSpec (data : List Doc) (q : List Char) : Prop :=
  parse_and_search data q
    = step6 data (near_extract (extract_phrases q).2 (extract_phrases q).1).2
        (step5 data
          (((splitOp "NOT".toList
              (pystrip (near_extract (extract_phrases q).2
                (extract_phrases q).1).1)).drop 1).filterMap
            (fun t => if (pystrip t).isEmpty then none
                      else some (restore (extract_phrases q).2 (pystrip t))))
          (stage4 data (extract_phrases q).2
            (pystrip (pystrip ((splitOp "NOT".toList
              (pystrip (near_extract (extract_phrases q).2
                (extract_phrases q).1).1)).headD [])))))

/-- **C7** (amended): the NOT stage triggers on the literal `" NOT "`
substring of the upper-cased working string (not on every whole-word
NOT); when it triggers, the segment before the first whitespace-delimited
NOT is the primary query, the segments after it are the exclusion terms,
and a primary hit is dropped by the exclusion filter iff its filename
appears in some exclusion term's own single-term search result, all
other hits passing unchanged to the proximity merge. -/
theorem c7_not_exclusion (data : List Doc) (q : List Char)
    (hnot : containsSeq " NOT ".toList
      ((pystrip (near_extract (extract_phrases q).2
        (extract_phrases q).1).1).map upperChar) = true) :
    notExclusionSpec data q ∧
    (∀ (R : List Hit) (nts : List (List Char)) (r : Hit),
      r ∈ applyNot data nts R ↔
        (r ∈ R ∧ ¬ ∃ nt ∈ nts, ∃ h ∈ search data nt false false 300,
          h.filename = r.filename)) := by
  constructor
  · unfold notExclusionSpec parse_and_search
    have hns : notSplit (extract_phrases q).2
        (pystrip (near_extract (extract_phrases q).2 (extract_phrases q).1).1)
        = (pystrip ((splitOp "NOT".toList
            (pystrip (near_extract (extract_phrases q).2
              (extract_phrases q).1).1)).headD []),
           ((splitOp "NOT".toList
              (pystrip (near_extract (extract_phrases q).2
                (extract_phrases q).1).1)).drop 1).filterMap
            (fun t => if (pystrip t).isEmpty then none
                      else some (restore (extract_phrases q).2 (pystrip t)))) := by
      unfold notSplit
      rw [if_pos hnot]
    rw [hns]
  · intro R nts r
    unfold applyNot
    rw [List.mem_filter]
    apply and_congr_right
    intro _
    rw [Bool.not_eq_true']
    constructor
    · intro hfalse hex
      obtain ⟨nt, hnt, h, hh, heq⟩ := hex
      have htrue : nts.any (fun nt =>
          (search data nt false false 300).any (fun h => h.filename == r.filename)) = true := by
        rw [List.any_eq_true]
        refine ⟨nt, hnt, ?_⟩
        rw [List.any_eq_true]
        exact ⟨h, hh, by simp [heq]⟩
      rw [htrue] at hfalse
      cases hfalse
    · intro hnex
      cases hb : nts.any (fun nt =>
          (search data nt false false 300).any (fun h => h.filename == r.filename)) with
      | false => rfl
      | true =>
        exfalso
        apply hnex
        rw [List.any_eq_true] at hb
        obtain ⟨nt, hnt, hin⟩ := hb
        rw [List.any_eq_true] at hin
        obtain ⟨h, hh, hbeq⟩ := hin
        exact ⟨nt, hnt, h, hh, by simpa using hbeq⟩

/-- Witness for the amended C7 at a concrete query with a space-delimited
NOT. -/
theorem c7_not_exclusion_witness :
    containsSeq " NOT ".toList
      ((pystrip (near_extract (extract_phrases "a NOT b".toList).2
        (extract_phrases "a NOT b".toList).1).1).map upperChar) = true ∧
    notExclusionSpec [doc2] "a NOT b".toList :=
  ⟨by decide, (c7_not_exclusion [doc2] "a NOT b".toList (by decide)).1⟩

/-! ## Pagination and totals (`server.search_api`) -/

theorem insertHit_length (le : Hit → Hit → Bool) (x : Hit) :
    ∀ l, (insertHit le x l).length = l.length + 1 := by
  intro l
  induction l with
  | nil => rfl
  | cons y ys ih =>
    unfold insertHit
    by_cases h : le y x
    · rw [if_pos h]
      simp only [List.length_cons, ih]
    · rw [if_neg h]
      simp [List.length_cons]

theorem insertHit_map_sum (f : Hit → Nat) (le : Hit → Hit → Bool) (x : Hit) :
    ∀ l, ((insertHit le x l).map f).sum = f x + (l.map f).sum := by
  intro l
  induction l with
  | nil => simp [insertHit]
  | cons y ys ih =>
    unfold insertHit
    by_cases h : le y x
    · rw [if_pos h]
      simp only [List.map_cons, List.sum_cons, ih]
      omega
    · rw [if_neg h]
      simp [List.map_cons, List.sum_cons]

theorem pySort_length (le : Hit → Hit → Bool) (l : List Hit) :
    (pySort le l).length = l.length := by
  suffices h : ∀ (l : List Hit) (acc : List Hit),
      (l.foldl (fun acc x => insertHit le x acc) acc).length = acc.length + l.length by
    simpa using h l []
  intro l
  induction l with
  | nil =>
    intro acc
    simp
  | cons x xs ih =>
    intro acc
    rw [List.foldl_cons, ih, insertHit_length]
    simp only [List.length_cons]
    omega

theorem pySort_map_sum (f : Hit → Nat) (le : Hit → Hit → Bool) (l : List Hit) :
    ((pySort le l).map f).sum = (l.map f).sum := by
  suffices h : ∀ (l : List Hit) (acc : List Hit),
      ((l.foldl (fun acc x => insertHit le x acc) acc).map f).sum
        = (acc.map f).sum + (l.map f).sum by
    simpa using h l []
  intro l
  induction l with
  | nil =>
    intro acc
    simp
  | cons x xs ih =>
    intro acc
    rw [List.foldl_cons, ih, insertHit_map_sum]
    simp only [List.map_cons, List.sum_cons]
    omega

/-- **C8**: the search API computes the totals (document count and
summed match count) over the full filtered result set before slicing,
and the returned page is exactly the slice
`results[(page-1)*per_page : page*per_page]` of the sorted list, each
entry shaped for the response (contexts capped at 50). -/
theorem c8_pagination (data : List Doc) (q : List Char) (page per_page : Nat)
    (dataset : Option Nat) (min_pages : Nat) (max_pages : Option Nat) (sort : SortKey)
    (_hpage : 1 ≤ page) :
    (search_api data q page per_page dataset min_pages max_pages sort).total
      = (filteredResults data q dataset min_pages max_pages).length ∧
    (search_api data q page per_page dataset min_pages max_pages sort).totalMatches
      = ((filteredResults data q dataset min_pages max_pages).map
          (fun r => r.match_count)).sum ∧
    (search_api data q page per_page dataset min_pages max_pages sort).results
      = (((pySort (sortLe sort) (filteredResults data q dataset min_pages max_pages)).drop
          ((page - 1) * per_page)).take per_page).map respEntry ∧
    (search_api data q page per_page dataset min_pages max_pages sort).page = page ∧
    (search_api data q page per_page dataset min_pages max_pages sort).perPage = per_page := by
  refine ⟨?_, ?_, rfl, rfl, rfl⟩
  · exact pySort_length (sortLe sort) (filteredResults data q dataset min_pages max_pages)
  · exact pySort_map_sum (fun r => r.match_count) (sortLe sort)
      (filteredResults data q dataset min_pages max_pages)

/-- Three documents with 3, 2 and 1 matches of "z", for the pagination
witness: page 2 with one hit per page must return exactly the
2nd-ranked document and total 3. -/
def corpus8 : List Doc :=
  [ { dataset := 1, filename := "d1", filepath := "p1", pages := 1,
      text := "z z z".toList, page_offsets := none },
    { dataset := 1, filename := "d2", filepath := "p2", pages := 1,
      text := "z z".toList, page_offsets := none },
    { dataset := 1, filename := "d3", filepath := "p3", pages := 1,
      text := "z".toList, page_offsets := none } ]

/-- Witness for C8: requesting page 2 with per_page 1 over the 3-hit
relevance-sorted result; additionally checks concretely that the slice
is the 2nd-ranked hit and the totals cover all three hits. -/
theorem c8_pagination_witness :
    ((search_api corpus8 "z".toList 2 1 none 0 none SortKey.relevance).total
        = (filteredResults corpus8 "z".toList none 0 none).length ∧
      (search_api corpus8 "z".toList 2 1 none 0 none SortKey.relevance).totalMatches
        = ((filteredResults corpus8 "z".toList none 0 none).map
            (fun r => r.match_count)).sum ∧
      (search_api corpus8 "z".toList 2 1 none 0 none SortKey.relevance).results
        = (((pySort (sortLe SortKey.relevance)
            (filteredResults corpus8 "z".toList none 0 none)).drop ((2 - 1) * 1)).take 1).map
              respEntry ∧
      (search_api corpus8 "z".toList 2 1 none 0 none SortKey.relevance).page = 2 ∧
      (search_api corpus8 "z".toList 2 1 none 0 none SortKey.relevance).perPage = 1) ∧
    (search_api corpus8 "z".toList 2 1 none 0 none SortKey.relevance).results.map
        (fun r => (r.filename, r.match_count)) = [("d2", 2)] ∧
    (search_api corpus8 "z".toList 2 1 none 0 none SortKey.relevance).total = 3 ∧
    (search_api corpus8 "z".toList 2 1 none 0 none SortKey.relevance).totalMatches = 6 :=
  ⟨c8_pagination corpus8 "z".toList 2 1 none 0 none SortKey.relevance (by decide),
    by decide, by decide, by decide⟩

/-! ## Index builder (`build_index`) -/

theorem rowOf_none_iff (i : Nat) (d : RawDoc) :
    rowOf i d = none ↔ requiredMissing d = true := by
  unfold rowOf requiredMissing
  cases d.dataset <;> cases d.filename <;> cases d.filepath <;> cases d.pages <;> simp

theorem rowOf_ids (i : Nat) (d : RawDoc) (rf : DocRow × (Nat × String))
    (h : rowOf i d = some rf) : rf.1.id = i + 1 ∧ rf.2.1 = i + 1 := by
  obtain ⟨ds, fn, fp, pg, po, tx⟩ := d
  cases ds <;> cases fn <;> cases fp <;> cases pg <;> simp only [rowOf] at h <;>
    first
      | exact Option.noConfusion h
      | (rw [← Option.some.inj h]; exact ⟨rfl, rfl⟩)

/-- One loop iteration preserves the "committed ++ pending" view of both
tables and counts one error exactly for a document with missing required
fields. -/
theorem stepDoc_spec (st : BuildState) (i : Nat) (d : RawDoc) :
    (stepDoc st i d).db_documents ++ (stepDoc st i d).doc_rows
        = (st.db_documents ++ st.doc_rows) ++ ((rowOf i d).map Prod.fst).toList ∧
    (stepDoc st i d).db_fts ++ (stepDoc st i d).fts_rows
        = (st.db_fts ++ st.fts_rows) ++ ((rowOf i d).map Prod.snd).toList ∧
    (stepDoc st i d).errors
        = st.errors + (if requiredMissing d then 1 else 0) := by
  unfold stepDoc
  cases hrow : rowOf i d with
  | none =>
    have hmiss : requiredMissing d = true := (rowOf_none_iff i d).mp hrow
    simp [hmiss]
  | some rows =>
    have hmiss : requiredMissing d = false := by
      cases hm : requiredMissing d with
      | false => rfl
      | true =>
        rw [(rowOf_none_iff i d).mpr hm] at hrow
        cases hrow
    by_cases hb : BATCH_SIZE ≤ (st.doc_rows ++ [rows.1]).length
    · simp only [hb, if_true, flushBatch, hmiss, Option.map_some, Option.toList_some]
      refine ⟨?_, ?_, rfl⟩ <;> simp [List.append_assoc]
    · simp only [hb, if_false, hmiss, Option.map_some, Option.toList_some]
      refine ⟨?_, ?_, rfl⟩ <;> simp [List.append_assoc]

/-- Loop invariant over the whole input tail. -/
theorem buildLoop_spec :
    ∀ (data : List RawDoc) (st : BuildState) (i : Nat),
      (buildLoop st i data).db_documents ++ (buildLoop st i data).doc_rows
        = (st.db_documents ++ st.doc_rows)
          ++ (enumFrom i data).filterMap (fun p => (rowOf p.1 p.2).map Prod.fst) ∧
      (buildLoop st i data).db_fts ++ (buildLoop st i data).fts_rows
        = (st.db_fts ++ st.fts_rows)
          ++ (enumFrom i data).filterMap (fun p => (rowOf p.1 p.2).map Prod.snd) ∧
      (buildLoop st i data).errors
        = st.errors
          + ((enumFrom i data).filter (fun p => requiredMissing p.2)).length := by
  intro data
  induction data with
  | nil =>
    intro st i
    simp [buildLoop, enumFrom]
  | cons d rest ih =>
    intro st i
    have hloop : buildLoop st i (d :: rest) = buildLoop (stepDoc st i d) (i + 1) rest := rfl
    rw [hloop]
    obtain ⟨ih1, ih2, ih3⟩ := ih (stepDoc st i d) (i + 1)
    obtain ⟨s1, s2, s3⟩ := stepDoc_spec st i d
    have henum : enumFrom i (d :: rest) = (i, d) :: enumFrom (i + 1) rest := rfl
    rw [henum]
    refine ⟨?_, ?_, ?_⟩
    · rw [ih1, s1, List.filterMap_cons]
      cases hrow : rowOf i d with
      | none => simp
      | some rows => simp [List.append_assoc]
    · rw [ih2, s2, List.filterMap_cons]
      cases hrow : rowOf i d with
      | none => simp
      | some rows => simp [List.append_assoc]
    · rw [ih3, s3, List.filter_cons]
      cases hm : requiredMissing d with
      | false => simp
      | true => simp [List.length_cons]; omega

theorem enumFrom_get {α : Type} :
    ∀ (l : List α) (i j : Nat) (a : α), (j, a) ∈ enumFrom i l →
      i ≤ j ∧ l.get? (j - i) = some a := by
  intro l
  induction l with
  | nil =>
    intro i j a h
    simp [enumFrom] at h
  | cons b rest ih =>
    intro i j a h
    rw [show enumFrom i (b :: rest) = (i, b) :: enumFrom (i + 1) rest from rfl] at h
    rcases List.mem_cons.mp h with h1 | h1
    · have hj : j = i ∧ a = b := by
        simpa [Prod.ext_iff] using h1
      rw [hj.1]
      refine ⟨Nat.le_refl _, ?_⟩
      simp [hj.2]
    · obtain ⟨hle, hget⟩ := ih (i + 1) j a h1
      refine ⟨by omega, ?_⟩
      have : j - i = (j - (i + 1)) + 1 := by omega
      rw [this]
      simpa using hget

/-- `doc_rows` and `fts_rows` always hold the same number of pending
rows (they are appended to and cleared together). -/
theorem stepDoc_sync (st : BuildState) (i : Nat) (d : RawDoc)
    (h : st.doc_rows.length = st.fts_rows.length) :
    (stepDoc st i d).doc_rows.length = (stepDoc st i d).fts_rows.length := by
  unfold stepDoc
  cases hrow : rowOf i d with
  | none => simpa
  | some rows =>
    dsimp only
    by_cases hb : BATCH_SIZE ≤ (st.doc_rows ++ [rows.1]).length
    · rw [if_pos hb]
      rfl
    · rw [if_neg hb]
      simp [h]

theorem buildLoop_sync :
    ∀ (data : List RawDoc) (st : BuildState) (i : Nat),
      st.doc_rows.length = st.fts_rows.length →
      (buildLoop st i data).doc_rows.length = (buildLoop st i data).fts_rows.length := by
  intro data
  induction data with
  | nil =>
    intro st i h
    exact h
  | cons d rest ih =>
    intro st i h
    exact ih (stepDoc st i d) (i + 1) (stepDoc_sync st i d h)

theorem enumFrom_mem_of_get {α : Type} :
    ∀ (l : List α) (i k : Nat) (a : α), l.get? k = some a → (i + k, a) ∈ enumFrom i l := by
  intro l
  induction l with
  | nil =>
    intro i k a h
    simp at h
  | cons b rest ih =>
    intro i k a h
    rw [show enumFrom i (b :: rest) = (i, b) :: enumFrom (i + 1) rest from rfl]
    cases k with
    | zero =>
      simp only [List.get?_cons_zero, Option.some.injEq] at h
      simp [h]
    | succ k =>
      simp only [List.get?_cons_succ] at h
      refine List.mem_cons_of_mem _ ?_
      have harith : i + (k + 1) = (i + 1) + k := by omega
      rw [harith]
      exact ih (i + 1) k a h

/-- **C9**: the index builder skips exactly the documents with a missing
required field: each one is counted as an error and contributes a row to
neither the metadata table nor the full-text table, while the loop runs
to completion over all remaining documents, the successfully indexed
document at 0-based input position `i` receiving id `i + 1`. -/
theorem c9_build_index (data : List RawDoc) :
    (build_index data).db_documents
        = (enumFrom 0 data).filterMap (fun p => (rowOf p.1 p.2).map Prod.fst) ∧
    (build_index data).db_fts
        = (enumFrom 0 data).filterMap (fun p => (rowOf p.1 p.2).map Prod.snd) ∧
    (build_index data).errors
        = ((enumFrom 0 data).filter (fun p => requiredMissing p.2)).length ∧
    (∀ i d r f, data.get? i = some d → rowOf i d = some (r, f) →
        r ∈ (build_index data).db_documents ∧ r.id = i + 1 ∧ f.1 = i + 1) ∧
    (∀ i d, data.get? i = some d → requiredMissing d = true →
        (∀ row ∈ (build_index data).db_documents, row.id ≠ i + 1) ∧
        (∀ f ∈ (build_index data).db_fts, f.1 ≠ i + 1)) := by
  obtain ⟨h1, h2, h3⟩ := buildLoop_spec data
    { db_documents := [], db_fts := [], doc_rows := [], fts_rows := [], errors := 0 } 0
  have hsync := buildLoop_sync data
    { db_documents := [], db_fts := [], doc_rows := [], fts_rows := [], errors := 0 } 0 rfl
  simp only [List.nil_append, Nat.zero_add] at h1 h2 h3
  have hfin : (build_index data).db_documents
        = (enumFrom 0 data).filterMap (fun p => (rowOf p.1 p.2).map Prod.fst) ∧
      (build_index data).db_fts
        = (enumFrom 0 data).filterMap (fun p => (rowOf p.1 p.2).map Prod.snd) ∧
      (build_index data).errors
        = ((enumFrom 0 data).filter (fun p => requiredMissing p.2)).length := by
    unfold build_index
    by_cases hbuf : (buildLoop
        { db_documents := [], db_fts := [], doc_rows := [], fts_rows := [], errors := 0 }
        0 data).doc_rows.isEmpty
    · rw [if_pos hbuf]
      rw [List.isEmpty_iff] at hbuf
      have hfts : (buildLoop
          { db_documents := [], db_fts := [], doc_rows := [], fts_rows := [], errors := 0 }
          0 data).fts_rows = [] := by
        rw [hbuf] at hsync
        exact List.eq_nil_of_length_eq_zero hsync.symm
      rw [hbuf, List.append_nil] at h1
      rw [hfts, List.append_nil] at h2
      exact ⟨h1, h2, h3⟩
    · rw [if_neg hbuf]
      exact ⟨h1, h2, h3⟩
  obtain ⟨hdb, hft, herr⟩ := hfin
  refine ⟨hdb, hft, herr, ?_, ?_⟩
  · intro i d r f hget hrow
    have hmem : (0 + i, d) ∈ enumFrom 0 data := enumFrom_mem_of_get data 0 i d hget
    rw [Nat.zero_add] at hmem
    obtain ⟨hid, hfid⟩ := rowOf_ids i d (r, f) hrow
    refine ⟨?_, hid, hfid⟩
    rw [hdb]
    exact List.mem_filterMap.mpr ⟨(i, d), hmem, by rw [hrow]; rfl⟩
  · intro i d hget hmiss
    constructor
    · intro row hrowmem hid
      rw [hdb] at hrowmem
      obtain ⟨p, hp, hprow⟩ := List.mem_filterMap.mp hrowmem
      obtain ⟨pair, hpair, hfst⟩ := Option.map_eq_some'.mp hprow
      obtain ⟨hidp, _⟩ := rowOf_ids p.1 p.2 pair (by rw [hpair])
      obtain ⟨_, hgetp⟩ := enumFrom_get data 0 p.1 p.2 (by
        cases p with
        | mk a b => exact hp)
      rw [Nat.sub_zero] at hgetp
      have hji : p.1 = i := by
        rw [← hfst] at hid
        omega
      rw [hji] at hgetp
      rw [hget] at hgetp
      have hd : p.2 = d := (Option.some.inj hgetp).symm
      have : rowOf p.1 p.2 = none := by
        rw [hji, hd]
        exact (rowOf_none_iff i d).mpr hmiss
      rw [this] at hpair
      cases hpair
    · intro f hfmem hid
      rw [hft] at hfmem
      obtain ⟨p, hp, hprow⟩ := List.mem_filterMap.mp hfmem
      obtain ⟨pair, hpair, hsnd⟩ := Option.map_eq_some'.mp hprow
      obtain ⟨_, hfidp⟩ := rowOf_ids p.1 p.2 pair (by rw [hpair])
      obtain ⟨_, hgetp⟩ := enumFrom_get data 0 p.1 p.2 (by
        cases p with
        | mk a b => exact hp)
      rw [Nat.sub_zero] at hgetp
      have hji : p.1 = i := by
        rw [← hsnd] at hid
        omega
      rw [hji] at hgetp
      rw [hget] at hgetp
      have hd : p.2 = d := (Option.some.inj hgetp).symm
      have : rowOf p.1 p.2 = none := by
        rw [hji, hd]
        exact (rowOf_none_iff i d).mpr hmiss
      rw [this] at hpair
      cases hpair

/-- A valid raw document and one missing its filename, for the C9
witness. -/
def raw9 : List RawDoc :=
  [ { dataset := some 1, filename := some "ok1", filepath := some "p1",
      pages := some 2, page_offsets := some [0, 5], text := some "hello" },
    { dataset := some 1, filename := none, filepath := some "p2",
      pages := some 1, page_offsets := none, text := some "bad" },
    { dataset := some 2, filename := some "ok3", filepath := some "p3",
      pages := some 1, page_offsets := some [], text := none } ]

/-- Witness for C9: the middle document (missing `filename`) is skipped
and counted; the surviving documents receive ids 1 and 3. -/
theorem c9_build_index_witness :
    ((build_index raw9).db_documents
        = (enumFrom 0 raw9).filterMap (fun p => (rowOf p.1 p.2).map Prod.fst) ∧
      (build_index raw9).db_fts
        = (enumFrom 0 raw9).filterMap (fun p => (rowOf p.1 p.2).map Prod.snd) ∧
      (build_index raw9).errors
        = ((enumFrom 0 raw9).filter (fun p => requiredMissing p.2)).length ∧
      (∀ i d r f, raw9.get? i = some d → rowOf i d = some (r, f) →
          r ∈ (build_index raw9).db_documents ∧ r.id = i + 1 ∧ f.1 = i + 1) ∧
      (∀ i d, raw9.get? i = some d → requiredMissing d = true →
          (∀ row ∈ (build_index raw9).db_documents, row.id ≠ i + 1) ∧
          (∀ f ∈ (build_index raw9).db_fts, f.1 ≠ i + 1))) ∧
    (build_index raw9).db_documents.map (fun r => r.id) = [1, 3] ∧
    (build_index raw9).errors = 1 :=
  ⟨c9_build_index raw9, by decide, by decide⟩


/-! ## FTS5 error fallback (`SQLiteSearcher.search`) -/

/-- **C10**: with the FTS5 engine abstracted as an oracle, whenever the
translated query raises a syntax error, `SQLiteSearcher.search` never
propagates it: it retries once with the sanitised bare-term query when
that is non-empty and different from the translated query, returning
that result on success; in every failing or nothing-new case it returns
the empty well-formed result `([], 0)`.  A successful engine call is
passed through unchanged, so a query matching nothing yields
`([], 0)` rather than an error. -/
theorem c10_sqlite_fallback (exec : List Char → Except Unit (List Hit × Nat))
    (q : List Char) (hne : translate_query q ≠ []) :
    (∀ res : List Hit × Nat, exec (translate_query q) = .ok res →
        sqlite_search exec q = res) ∧
    (∀ e : Unit, exec (translate_query q) = .error e →
        sanitize q ≠ [] → sanitize q ≠ translate_query q →
        ∀ res2 : List Hit × Nat, exec (sanitize q) = .ok res2 →
          sqlite_search exec q = res2) ∧
    (∀ e : Unit, exec (translate_query q) = .error e →
        ∀ e2 : Unit, exec (sanitize q) = .error e2 →
          sqlite_search exec q = ([], 0)) ∧
    (∀ e : Unit, exec (translate_query q) = .error e →
        (sanitize q = [] ∨ sanitize q = translate_query q) →
          sqlite_search exec q = ([], 0)) := by
  have hemp : (translate_query q).isEmpty = false := by
    cases htq : translate_query q with
    | nil => exact absurd htq hne
    | cons a l => rfl
  refine ⟨?_, ?_, ?_, ?_⟩
  · intro res hok
    unfold sqlite_search
    rw [if_neg (by simp [hemp])]
    rw [hok]
  · intro e herr hs1 hs2 res2 hok2
    unfold sqlite_search
    rw [if_neg (by simp [hemp])]
    rw [herr]
    rw [if_pos ⟨hs1, hs2⟩]
    rw [hok2]
  · intro e herr e2 herr2
    unfold sqlite_search
    rw [if_neg (by simp [hemp])]
    rw [herr]
    by_cases hcond : sanitize q ≠ [] ∧ sanitize q ≠ translate_query q
    · rw [if_pos hcond]
      rw [herr2]
    · rw [if_neg hcond]
  · intro e herr hor
    unfold sqlite_search
    rw [if_neg (by simp [hemp])]
    rw [herr]
    rw [if_neg (by
      intro hcond
      rcases hor with h | h
      · exact hcond.1 h
      · exact hcond.2 h)]

/-- A concrete FTS5 oracle: rejects the translated form `foo (` with a
syntax error and accepts anything else with an empty result. -/
def exec0 : List Char → Except Unit (List Hit × Nat) :=
  fun s => if s = "foo (".toList then .error () else .ok ([], 0)

/-- Witness for C10: the query `foo (` fails in the engine; the
sanitised retry `foo` succeeds with an empty result, so search returns
`([], 0)` instead of raising. -/
theorem c10_sqlite_fallback_witness :
    translate_query "foo (".toList ≠ [] ∧
    sqlite_search exec0 "foo (".toList = ([], 0) := by
  constructor
  · decide
  · exact (c10_sqlite_fallback exec0 "foo (".toList (by decide)).2.1 () rfl
      (by decide) (by decide) ([], 0) rfl

end Epstein
